import Mathlib

/-!
A verification development for the Foundry Local service-discovery module
(`foundry-service.js`).  The JavaScript source is shallowly embedded here:

* effect-free helpers (`normalizeEndpoint`, the CLI-output parsing inside
  `queryServiceFromCLI`, the cache freshness logic) become Lean functions;
* the platform `URL` constructor and `JSON.parse` are not part of the
  repository, so they are modelled: `parseURL` models the WHATWG URL parser
  on the class of inputs the module handles (an ASCII `scheme://host[:port]`
  shape with optional userinfo, path, query and fragment; IDNA host
  encoding, percent-encoding, dot-segment removal, IPv4/IPv6 host
  canonicalisation, backslash authority separators for special schemes and
  whitespace pre-trimming are outside the modelled class and make the model
  parser fail or return the raw text where the platform parser would
  canonicalise), and JSON values reaching the code are passed in already
  parsed;
* the stateful orchestration (`startFoundryService`,
  `discoverFoundryService`) is embedded as pure functions over an explicit
  trace of CLI status-query results and an HTTP probe oracle, with
  instrumentation recording which external actions were taken.
-/

namespace FoundryService

/-! ### ASCII helpers -/

/-- ASCII lower-casing of a single character (code points 65–90 shift to
97–122), as the URL parser applies to scheme and host characters. -/
def lowerChar (c : Char) : Char :=
  if 65 ≤ c.toNat ∧ c.toNat ≤ 90 then Char.ofNat (c.toNat + 32) else c

/-- ASCII letter. -/
def asciiAlpha (c : Char) : Bool :=
  decide ((65 ≤ c.toNat ∧ c.toNat ≤ 90) ∨ (97 ≤ c.toNat ∧ c.toNat ≤ 122))

/-- ASCII decimal digit. -/
def asciiDigit (c : Char) : Bool :=
  decide (48 ≤ c.toNat ∧ c.toNat ≤ 57)

/-- Characters allowed after the first position of a URL scheme: ASCII
alphanumerics and `+` (43), `-` (45), `.` (46). -/
def isSchemeChar (c : Char) : Bool :=
  asciiAlpha c || asciiDigit c ||
    decide (c.toNat = 43 ∨ c.toNat = 45 ∨ c.toNat = 46)

/-- Host characters rejected by the URL parser: controls and space
(≤ 32), non-ASCII (≥ 127, outside the modelled class), and the forbidden
host code points `" # % / : < > ? @ [ \ ] ^ |`. -/
def forbiddenHostChar (c : Char) : Bool :=
  decide (c.toNat ≤ 32 ∨ 127 ≤ c.toNat ∨ c.toNat = 34 ∨ c.toNat = 35 ∨
    c.toNat = 37 ∨ c.toNat = 47 ∨ c.toNat = 58 ∨ c.toNat = 60 ∨
    c.toNat = 62 ∨ c.toNat = 63 ∨ c.toNat = 64 ∨ c.toNat = 91 ∨
    c.toNat = 92 ∨ c.toNat = 93 ∨ c.toNat = 94 ∨ c.toNat = 124)

/-- Numeric value of a decimal digit string (most significant first). -/
def digitsVal (l : List Char) : Nat :=
  l.foldl (fun a c => 10 * a + (c.toNat - 48)) 0

/-- Canonical decimal form of a digit string: leading zeros removed, a
string of all zeros collapsing to `"0"` (the URL parser stores the port as
a number and reserialises it). -/
def dropLeadingZeros (l : List Char) : List Char :=
  let r := l.dropWhile (fun c => decide (c.toNat = 48))
  if r.isEmpty then [ '0' ] else r

/-! ### The URL parser model -/

/-- The components of a parsed URL that `foundry-service.js` reads:
`protocol` keeps its trailing colon, `port` is `""` when absent or equal to
the scheme default, exactly as in the WHATWG API. -/
structure URLRec where
  protocol : String
  hostname : String
  port : String
  pathname : String
deriving DecidableEq, Repr

/-- Scheme scanner: consume scheme characters until the terminating colon. -/
def schemeSplit (acc : List Char) : List Char → Option (List Char × List Char)
  | [] => none
  | c :: r =>
    if c.toNat = 58 then some (acc.reverse, r)
    else if isSchemeChar c then schemeSplit (c :: acc) r
    else none

/-- Split off `scheme:` from the input; fails when the input does not start
with an ASCII letter followed by scheme characters and a colon. -/
def splitScheme : List Char → Option (List Char × List Char)
  | c :: r => if asciiAlpha c then schemeSplit [c] r else none
  | [] => none

def isSpecialScheme (s : String) : Bool :=
  s == "http" || s == "https" || s == "ws" || s == "wss" || s == "ftp" || s == "file"

def defaultPort (s : String) : Option Nat :=
  if s == "http" || s == "ws" then some 80
  else if s == "https" || s == "wss" then some 443
  else if s == "ftp" then some 21
  else none

/-- Characters terminating the authority component: `/` (47), `?` (63),
`#` (35). -/
def authStop (c : Char) : Bool :=
  decide (c.toNat = 47 ∨ c.toNat = 63 ∨ c.toNat = 35)

/-- The part of an authority after the last `@` (64; the host parser
discards userinfo). -/
def afterLastAt (l : List Char) : List Char :=
  (l.reverse.takeWhile (fun c => decide (c.toNat ≠ 64))).reverse

/-- Split an authority remainder at its last colon (58) into host and port
part; `none` when no colon occurs. -/
def splitHostPort (l : List Char) : List Char × Option (List Char) :=
  if (l.reverse.takeWhile (fun c => decide (c.toNat ≠ 58))).length = l.length
  then (l, none)
  else (l.take (l.length - (l.reverse.takeWhile (fun c => decide (c.toNat ≠ 58))).length - 1),
        some (l.reverse.takeWhile (fun c => decide (c.toNat ≠ 58))).reverse)

/-- Host parsing when the authority has no port part: validate the host
and require a special non-file scheme to have a non-empty host. -/
def parseHostPortNoColon (sch : String) (h0 : List Char) : Option (String × String) :=
  if (h0.map lowerChar).any forbiddenHostChar then none
  else if isSpecialScheme sch && !(sch == "file") && (h0.map lowerChar).isEmpty then none
  else some (String.mk (h0.map lowerChar), "")

/-- Host and port parsing when the authority contains a colon: the host
before it must be non-empty and valid, the port must be empty or a digit
string of value at most 65535, and a port equal to the scheme default is
dropped; otherwise the port is stored in canonical decimal form. -/
def parseHostPortWithPort (sch : String) (h0 p0 : List Char) : Option (String × String) :=
  if h0.isEmpty then none
  else if (h0.map lowerChar).any forbiddenHostChar then none
  else if p0.isEmpty then some (String.mk (h0.map lowerChar), "")
  else if p0.all asciiDigit then
    if digitsVal p0 ≤ 65535 then
      if defaultPort sch = some (digitsVal p0) then some (String.mk (h0.map lowerChar), "")
      else some (String.mk (h0.map lowerChar), String.mk (dropLeadingZeros p0))
    else none
  else none

/-- Host and port parsing for an authority string. -/
def parseHostPort (sch : String) (auth : List Char) : Option (String × String) :=
  match splitHostPort (afterLastAt auth) with
  | (h0, none) => parseHostPortNoColon sch h0
  | (h0, some p0) => parseHostPortWithPort sch h0 p0

/-- Path component up to a query or fragment delimiter. -/
def takePath (l : List Char) : List Char :=
  l.takeWhile (fun c => !(c == '?' || c == '#'))

/-- Serialised path of a special-scheme URL: `"/"` when no path follows the
authority. -/
def specialPath (after : List Char) : List Char :=
  match after with
  | '/' :: _ => takePath ('/' :: after.tail)
  | _ => [ '/' ]

/-- Serialised path of a non-special URL with an authority. -/
def plainPath (after : List Char) : List Char :=
  match after with
  | '/' :: _ => takePath ('/' :: after.tail)
  | _ => []

/-- Authority-and-path parsing shared by the scheme branches. -/
def parseAuthorityRest (protocol sch : String) (special : Bool) (r : List Char) :
    Option URLRec :=
  match parseHostPort sch (r.takeWhile (fun c => !(authStop c))) with
  | none => none
  | some (host, port) =>
    some ⟨protocol, host, port,
      String.mk
        (if special then specialPath (r.drop (r.takeWhile (fun c => !(authStop c))).length)
         else plainPath (r.drop (r.takeWhile (fun c => !(authStop c))).length))⟩

/-- Does the remainder after `scheme:` start with the literal `//`? -/
def startsWithSlashes (l : List Char) : Bool :=
  match l with
  | a :: b :: _ => decide (a.toNat = 47) && decide (b.toNat = 47)
  | _ => false

/-- Scheme-directed parsing of the remainder after `scheme:`, with the
scheme already lower-cased.  A special non-file scheme skips every leading
slash or backslash before the authority; `file` and non-special schemes
take an authority only after a literal `//`; otherwise the remainder is an
opaque path with an empty host. -/
def parseURLCore (schL rest : List Char) : Option URLRec :=
  if isSpecialScheme (String.mk schL) then
    if String.mk schL = "file" then
      if startsWithSlashes rest then
        parseAuthorityRest (String.mk (schL ++ [ ':' ])) (String.mk schL) true
          (rest.drop 2)
      else some ⟨String.mk (schL ++ [ ':' ]), "", "", String.mk (takePath rest)⟩
    else
      parseAuthorityRest (String.mk (schL ++ [ ':' ])) (String.mk schL) true
        (rest.dropWhile (fun c => decide (c.toNat = 47 ∨ c.toNat = 92)))
  else
    if startsWithSlashes rest then
      parseAuthorityRest (String.mk (schL ++ [ ':' ])) (String.mk schL) false
        (rest.drop 2)
    else some ⟨String.mk (schL ++ [ ':' ]), "", "", String.mk (takePath rest)⟩

/-- Model of the WHATWG URL parser (`new URL(s)` with no base) on the
modelled input class; `none` models a thrown `TypeError`. -/
def parseURL (s : String) : Option URLRec :=
  match splitScheme s.data with
  | none => none
  | some (sch0, rest) => parseURLCore (sch0.map lowerChar) rest

/-! ### normalizeEndpoint -/

/-- The string `${url.protocol}//${url.hostname}${url.port ? ':'+url.port : ''}` —
the string built by the `try` branch of `normalizeEndpoint`. -/
def originOf (u : URLRec) : String :=
  u.protocol ++ "//" ++ u.hostname ++ (if u.port = "" then "" else ":" ++ u.port)

/-- Model of `endpoint.replace(/\/$/, '')`: remove a single trailing slash. -/
def stripTrailingSlash (l : List Char) : List Char :=
  if l.getLast? = some '/' then l.dropLast else l

/-- The `catch` branch of `normalizeEndpoint`: strip a trailing slash,
strip everything from the first remaining slash, prefix `http://` when no
`http://`/`https://` prefix is present, then rewrite a leading `https:` to
`http:`. -/
def fallbackNormalize (endpoint : String) : String :=
  let e1 := stripTrailingSlash endpoint.data
  let e2 := e1.takeWhile (fun c => !(c == '/'))
  let e3 := if ( "http://".data.isPrefixOf e2) || ( "https://".data.isPrefixOf e2)
            then e2 else "http://".data ++ e2
  let e4 := if "https:".data.isPrefixOf e3 then "http:".data ++ e3.drop 6 else e3
  String.mk e4

/-- The function `normalizeEndpoint(endpoint)` from `foundry-service.js`; `none` models
the `null` returned for a falsy argument. -/
def normalizeEndpoint (endpoint : String) : Option String :=
  if endpoint = "" then none
  else
    match parseURL endpoint with
    | some u => some (originOf u)
    | none => some (fallbackNormalize endpoint)

/-! ### The CLI status-output parser (`queryServiceFromCLI`)

`queryServiceFromCLI` runs `foundry service status` and deciphers its
stdout.  The external effects (process execution and `JSON.parse`) are
modelled as inputs: `parseCLIOutput` receives the result of the JSON
decode (`none` when `JSON.parse(stdout)` throws) together with the raw
stdout text, and performs the branch structure of lines 140–221 of the
source.  The regular-expression searches are embedded as executable
scanners with JavaScript leftmost-match, greedy-with-backtracking
semantics. -/

/-- The fields of a decoded JSON status object that the code reads
(`port`, `url`, `status`, `running`).  A field is `none` when absent or of
a type for which the code's test (`if (jsonOutput.port)`,
`=== 'running'`, `=== true`) cannot succeed; JSON numbers are modelled as
integers. -/
structure CLIStatus where
  port : Option Int
  url : Option String
  status : Option String
  running : Option Bool
deriving DecidableEq, Repr

/-- The object `queryServiceFromCLI` resolves with. -/
structure QueryResult where
  endpoint : Option String
  port : Option Int
  isRunning : Bool
  raw : String
deriving DecidableEq, Repr

/-- Case-insensitive ASCII character comparison, for the `/i` regex flag. -/
def charCIEq (a b : Char) : Bool := lowerChar a == lowerChar b

/-- Consume a literal pattern case-insensitively, returning the rest. -/
def stripPrefixCI : List Char → List Char → Option (List Char)
  | [], l => some l
  | _ :: _, [] => none
  | p :: ps, c :: cs => if charCIEq p c then stripPrefixCI ps cs else none

/-- Consume `http[s]?://` case-insensitively (with the regex backtracking
on the optional `s`), returning the rest. -/
def matchHttpSlashes (l : List Char) : Option (List Char) :=
  match stripPrefixCI [ 'h', 't', 't', 'p' ] l with
  | none => none
  | some r =>
    match r with
    | c :: r2 =>
      if c == 's' || c == 'S' then
        match stripPrefixCI [ ':', '/', '/' ] r2 with
        | some r3 => some r3
        | none => stripPrefixCI [ ':', '/', '/' ] r
      else stripPrefixCI [ ':', '/', '/' ] r
    | [] => none

/-- Does position `j` of `run` hold a colon that is preceded by at least
one character and followed by a digit?  (The backtracking target of
`[^\s\/]+:\d+`.) -/
def colonOK (run : List Char) (j : Nat) : Bool :=
  decide (1 ≤ j) && (run.get? j == some ':') &&
    (match run.get? (j + 1) with
     | some c => c.isDigit
     | none => false)

/-- Largest index `j ≤ k` with `colonOK run j`. -/
def lastColonDigitsAux (run : List Char) : Nat → Option Nat
  | 0 => none
  | j + 1 => if colonOK run (j + 1) then some (j + 1) else lastColonDigitsAux run j

/-- The split point the greedy `[^\s\/]+` backtracks to. -/
def lastColonDigits (run : List Char) : Option Nat :=
  if 2 ≤ run.length then lastColonDigitsAux run (run.length - 2) else none

/-- Attempt the pattern `/http[s]?:\/\/[^\s\/]+:\d+/i` at the start of
`l`; returns the matched text. -/
def fullUrlMatchAt (l : List Char) : Option (List Char) :=
  match matchHttpSlashes l with
  | none => none
  | some rest =>
    let pre := l.take (l.length - rest.length)
    let run := rest.takeWhile (fun c => !c.isWhitespace && !(c == '/'))
    match lastColonDigits run with
    | none => none
    | some k =>
      let ds := (run.drop (k + 1)).takeWhile Char.isDigit
      some (pre ++ run.take k ++ ':' :: ds)

/-- Leftmost match of `/http[s]?:\/\/[^\s\/]+:\d+/i` in the text. -/
def findFullUrl : List Char → Option (List Char)
  | [] => none
  | c :: cs =>
    match fullUrlMatchAt (c :: cs) with
    | some m => some m
    | none => findFullUrl cs

/-- The capture of `/:(\d+)$/`: trailing digits preceded by a colon. -/
def trailingPortDigits (l : List Char) : Option (List Char) :=
  let r := l.reverse
  let ds := r.takeWhile Char.isDigit
  if ds.isEmpty then none
  else
    match r.drop ds.length with
    | ':' :: _ => some ds.reverse
    | _ => none

/-- Attempt `/:\s*(\d+)/` at the start of `l`; returns the digit capture. -/
def colonPortAt : List Char → Option (List Char)
  | ':' :: r =>
    let r2 := r.dropWhile Char.isWhitespace
    let ds := r2.takeWhile Char.isDigit
    if ds.isEmpty then none else some ds
  | _ => none

/-- Leftmost capture of `/:\s*(\d+)/` in the text. -/
def findColonPort : List Char → Option (List Char)
  | [] => none
  | c :: cs =>
    match colonPortAt (c :: cs) with
    | some ds => some ds
    | none => findColonPort cs

/-- Attempt `/http[s]?:\/\/[^\s]+/i` at the start of `l`. -/
def bareUrlAt (l : List Char) : Option (List Char) :=
  match matchHttpSlashes l with
  | none => none
  | some rest =>
    let run := rest.takeWhile (fun c => !c.isWhitespace)
    if run.isEmpty then none
    else some (l.take (l.length - rest.length) ++ run)

/-- Leftmost match of `/http[s]?:\/\/[^\s]+/i` in the text. -/
def findBareUrl : List Char → Option (List Char)
  | [] => none
  | c :: cs =>
    match bareUrlAt (c :: cs) with
    | some m => some m
    | none => findBareUrl cs

/-- Lines 168–221 of the source: the three text-scanning fallbacks tried
after JSON decoding yields nothing usable. -/
def textScan (stdout : String) : QueryResult :=
  match findFullUrl stdout.data with
  | some m =>
    let port : Option Int :=
      match trailingPortDigits m with
      | some ds => some (digitsVal ds)
      | none => none
    ⟨some (String.mk m), port, true, stdout⟩
  | none =>
    match findColonPort stdout.data with
    | some ds =>
      let p : Nat := digitsVal ds
      ⟨some ( "http://127.0.0.1:" ++ toString p), some p, true, stdout⟩
    | none =>
      match findBareUrl stdout.data with
      | some m => ⟨some (String.mk m), none, true, stdout⟩
      | none => ⟨none, none, false, stdout⟩

/-- The `jsonOutput.url` branch: used verbatim when truthy, with
`isRunning` unconditionally true. -/
def tryUrlField (j : CLIStatus) (stdout : String) : QueryResult :=
  match j.url with
  | some u => if u = "" then textScan stdout else ⟨some u, none, true, stdout⟩
  | none => textScan stdout

/-- The branch taken when `JSON.parse` succeeded: `if (jsonOutput.port)`
is a truthiness test, so a `port` of 0 falls through to the `url` field
and then to text scanning. -/
def parseJSONStatus (j : CLIStatus) (stdout : String) : QueryResult :=
  match j.port with
  | some p =>
    if p = 0 then tryUrlField j stdout
    else
      ⟨some ( "http://127.0.0.1:" ++ toString p), some p,
       (j.status == some "running" || j.running == some true), stdout⟩
  | none => tryUrlField j stdout

/-- The pure part of `queryServiceFromCLI`: given the decoded JSON (or
`none` when `JSON.parse` threw) and the raw stdout, produce the result
object. -/
def parseCLIOutput (json : Option CLIStatus) (stdout : String) : QueryResult :=
  match json with
  | some j => parseJSONStatus j stdout
  | none => textScan stdout

/-! ### The endpoint cache

The cache file holds one JSON record `{endpoint, timestamp}`.  The file
system is modelled as an `Option CacheFile` (`none` for a missing,
unreadable or malformed file — the code's `catch` and `existsSync` paths),
and `Date.now()` as an explicit integer of epoch milliseconds. -/

/-- The persisted cache record. -/
structure CacheFile where
  endpoint : String
  timestamp : Int
deriving DecidableEq, Repr

/-- Cache freshness window: 24 hours in milliseconds. -/
def cacheFreshnessMs : Int := 24 * 60 * 60 * 1000

/-- Model of `readCachedEndpoint()`: require truthy `endpoint` and `timestamp`
fields and an age strictly below 24 hours, else `null`. -/
def readCachedEndpoint (file : Option CacheFile) (now : Int) : Option String :=
  match file with
  | some d =>
    if d.endpoint ≠ "" ∧ d.timestamp ≠ 0 then
      if now - d.timestamp < cacheFreshnessMs then some d.endpoint else none
    else none
  | none => none

/-- Model of `cacheEndpoint(endpoint)`: overwrite the cache file with
`{endpoint, timestamp: Date.now()}`, leaving the file untouched for a
falsy argument. -/
def cacheEndpoint (endpoint : String) (now : Int) (prev : Option CacheFile) :
    Option CacheFile :=
  if endpoint = "" then prev else some ⟨endpoint, now⟩

/-! ### verifyEndpoint

The network is modelled as a probe oracle mapping the request target
(hostname, port, path) to one of three outcomes, corresponding to the
three callbacks of lines 259–277: a response of any status, an `error`
event, or a `timeout` event.  The model function is total: the source
wraps everything in `try`/`catch` and only ever resolves its promise. -/

/-- Outcome of one HTTP probe. -/
inductive ProbeOutcome
  | response
  | netError
  | timeout
deriving DecidableEq, Repr

/-- Default `timeout` parameter of `verifyEndpoint`. -/
def defaultProbeTimeoutMs : Nat := 3000

/-- The request options built from the parsed URL: hostname,
`parsedUrl.port || 80`, and the URL's own path when it is non-root,
otherwise `/v1/models`. -/
def probeTarget (u : URLRec) : String × Nat × String :=
  (u.hostname,
   (if u.port = "" then 80 else digitsVal u.port.data),
   (if u.pathname ≠ "" ∧ u.pathname ≠ "/" then u.pathname else "/v1/models"))

/-- The resolution of the probe promise: any response resolves true, the
`error` and `timeout` callbacks resolve false. -/
def verifyOutcome : ProbeOutcome → Bool
  | .response => true
  | .netError => false
  | .timeout => false

/-- Model of `verifyEndpoint(url, timeout)`: parse the URL (resolving false on a
parse failure), issue one probe, and resolve true exactly on a response. -/
def verifyEndpoint (url : String) (_timeoutMs : Nat)
    (probe : String → Nat → String → ProbeOutcome) : Bool :=
  match parseURL url with
  | none => false
  | some u => verifyOutcome (probe (probeTarget u).1 (probeTarget u).2.1 (probeTarget u).2.2)

/-! ### startFoundryService

The successive results of `queryServiceFromCLI()` are modelled as a trace
(list) of `QueryResult`s consumed one per call; an exhausted trace yields
the result the source's own `catch` produces when the status command
fails.  The model records whether `exec('foundry service start')` was
issued and how many status queries were consumed; the wall-clock delays
(2000 ms grace, 1000 ms spacing, 2000 ms per-query exec timeout) do not
influence control flow and are kept as named constants. -/

/-- Per-query exec timeout (ms). -/
def statusQueryTimeoutMs : Nat := 2000

/-- Grace delay before the first poll iteration (ms). -/
def startGraceDelayMs : Nat := 2000

/-- Delay between poll iterations (ms). -/
def pollIntervalMs : Nat := 1000

/-- Settle delay before the orchestrator's final status query (ms). -/
def settleDelayMs : Nat := 1000

/-- The poll retry budget (`maxRetries`). -/
def maxRetries : Nat := 60

/-- The result of a failed `queryServiceFromCLI` call (its `catch`
branch), also used when the trace is exhausted. -/
def failedQuery : QueryResult := ⟨none, none, false, ""⟩

/-- Consume one status-query result from the trace. -/
def nextQuery : List QueryResult → QueryResult × List QueryResult
  | [] => (failedQuery, [])
  | q :: t => (q, t)

/-- The test `checkResult.isRunning && checkResult.endpoint`: running with a truthy
endpoint. -/
def isReady (q : QueryResult) : Bool :=
  q.isRunning && (match q.endpoint with
                  | some s => !(s == "")
                  | none => false)

/-- The value `startFoundryService` resolves with. -/
structure StartOutcome where
  started : Bool
  wasAlreadyRunning : Bool
  message : String
deriving DecidableEq, Repr

/-- Instrumented run of `startFoundryService`: its outcome, whether the
launch command was issued, the number of status queries consumed, and the
unconsumed remainder of the trace. -/
structure StartRun where
  outcome : StartOutcome
  launched : Bool
  queriesUsed : Nat
  rest : List QueryResult
deriving DecidableEq, Repr

/-- The polling loop of lines 83–103: up to `fuel` further status queries
after the launch command was issued (`used` queries consumed so far). -/
def pollLoop : Nat → List QueryResult → Nat → StartRun
  | 0, t, used =>
    ⟨⟨false, false, "Service start timeout - please check manually"⟩, true, used, t⟩
  | n + 1, t, used =>
    if isReady (nextQuery t).1 then
      ⟨⟨true, false, "Service started on " ++ (nextQuery t).1.endpoint.getD ""⟩,
       true, used + 1, (nextQuery t).2⟩
    else pollLoop n (nextQuery t).2 (used + 1)

/-- Model of `startFoundryService()`: an initial status query short-circuits when
already running; otherwise the launch command is issued (fire-and-forget)
and the status is polled up to `maxRetries` times. -/
def startFoundryService (trace : List QueryResult) : StartRun :=
  if isReady (nextQuery trace).1 then
    ⟨⟨false, true,
      "Service already running on " ++ (nextQuery trace).1.endpoint.getD ""⟩,
     false, 1, (nextQuery trace).2⟩
  else pollLoop maxRetries (nextQuery trace).2 1

/-! ### discoverFoundryService -/

/-- The value `discoverFoundryService` resolves with. -/
structure DiscoveryResult where
  endpoint : Option String
  port : Option Int
  isRunning : Bool
deriving DecidableEq, Repr

/-- Instrumented run of `discoverFoundryService`: its result, whether the
launch command was issued, the endpoint written to the cache (if any), the
endpoints passed to `verifyEndpoint` in order, and the number of status
queries consumed. -/
structure DiscoverRun where
  result : DiscoveryResult
  launched : Bool
  cacheWritten : Option String
  verifyCalls : List String
  queriesUsed : Nat
deriving DecidableEq, Repr

/-- Steps 3–5 of `discoverFoundryService` applied to the final status
query `q` after the launch-and-poll run `sr`: endpoint check, verification,
cache write. -/
def discoverStep (probe : String → Nat → String → ProbeOutcome)
    (vcalls : List String) (sr : StartRun) (q : QueryResult) : DiscoverRun :=
  match q.endpoint with
  | none => ⟨⟨none, q.port, false⟩, sr.launched, none, vcalls, sr.queriesUsed + 1⟩
  | some e =>
    if e = "" then
      ⟨⟨none, q.port, false⟩, sr.launched, none, vcalls, sr.queriesUsed + 1⟩
    else if verifyEndpoint e defaultProbeTimeoutMs probe then
      ⟨⟨some e, q.port, true⟩, sr.launched, some e, vcalls ++ [e], sr.queriesUsed + 1⟩
    else
      ⟨⟨some e, q.port, false⟩, sr.launched, none, vcalls ++ [e], sr.queriesUsed + 1⟩

/-- Steps 2–5 of `discoverFoundryService` (after the cache fast path):
launch-and-poll, one further status query, verification, cache write.
`vcalls` carries the verification calls already made on the cache path. -/
def discoverAfterCache (probe : String → Nat → String → ProbeOutcome)
    (trace : List QueryResult) (vcalls : List String) : DiscoverRun :=
  discoverStep probe vcalls (startFoundryService trace)
    (nextQuery (startFoundryService trace).rest).1

/-- Model of `discoverFoundryService()`: cache fast path (a live cached endpoint is
returned with `port: null` and no launch), then launch, final query,
verify, persist. -/
def discoverFoundryService (cache : Option CacheFile) (now : Int)
    (probe : String → Nat → String → ProbeOutcome)
    (trace : List QueryResult) : DiscoverRun :=
  match readCachedEndpoint cache now with
  | some ce =>
    if verifyEndpoint ce defaultProbeTimeoutMs probe then
      ⟨⟨some ce, none, true⟩, false, none, [ce], 0⟩
    else discoverAfterCache probe trace [ce]
  | none => discoverAfterCache probe trace []

/-! ### Well-formedness of parsed URLs

Auxiliary predicates used to show that the serialised origin of any
parser output parses back to the same origin components. -/

/-- The characters a non-empty port contributes to the serialised origin. -/
def portSuffix (port : String) : List Char :=
  if port = "" then [] else ':' :: port.data

/-- Invariants of the scheme list a successful parse produces. -/
structure SchemeOK (schL : List Char) : Prop where
  shape : ∃ c mid, schL = c :: mid ∧ asciiAlpha c = true
  chars : ∀ d ∈ schL, isSchemeChar d = true
  low : ∀ d ∈ schL, lowerChar d = d

/-- Invariants of every record a successful `parseURL` returns, relative
to its scheme list. -/
structure GoodURL (u : URLRec) (schL : List Char) : Prop where
  proto : u.protocol = String.mk (schL ++ [ ':' ])
  scheme_ok : SchemeOK schL
  host_forb : ∀ ch ∈ u.hostname.data, forbiddenHostChar ch = false
  host_low : ∀ ch ∈ u.hostname.data, lowerChar ch = ch
  host_ne : isSpecialScheme (String.mk schL) = true → ¬ String.mk schL = "file" →
    u.hostname.data ≠ []
  port_ok : u.port = "" ∨
    (u.hostname.data ≠ [] ∧ u.port.data ≠ [] ∧
     (∀ ch ∈ u.port.data, asciiDigit ch = true) ∧
     dropLeadingZeros u.port.data = u.port.data ∧
     digitsVal u.port.data ≤ 65535 ∧
     defaultPort (String.mk schL) ≠ some (digitsVal u.port.data))

/-! ### Character-level lemmas -/

theorem char_toNat_ofNat (n : Nat) (h : n.isValidChar) : (Char.ofNat n).toNat = n := by
  rw [Char.ofNat, dif_pos h]; rfl

theorem toNat_lowerChar (c : Char) :
    (lowerChar c).toNat =
      if 65 ≤ c.toNat ∧ c.toNat ≤ 90 then c.toNat + 32 else c.toNat := by
  unfold lowerChar
  by_cases h : 65 ≤ c.toNat ∧ c.toNat ≤ 90
  · rw [if_pos h, if_pos h]
    exact char_toNat_ofNat _ (Or.inl (by omega))
  · rw [if_neg h, if_neg h]

theorem lowerChar_eq_self {c : Char} (h : ¬ (65 ≤ c.toNat ∧ c.toNat ≤ 90)) :
    lowerChar c = c :=
  if_neg h

theorem lowerChar_fixed (c : Char) : lowerChar (lowerChar c) = lowerChar c := by
  have ht := toNat_lowerChar c
  by_cases h : 65 ≤ c.toNat ∧ c.toNat ≤ 90
  · rw [if_pos h] at ht
    exact lowerChar_eq_self (by omega)
  · simp only [lowerChar_eq_self h]

theorem asciiAlpha_lowerChar {c : Char} (h : asciiAlpha c = true) :
    asciiAlpha (lowerChar c) = true := by
  have ht := toNat_lowerChar c
  unfold asciiAlpha at h ⊢
  simp only [decide_eq_true_eq] at h ⊢
  by_cases hc : 65 ≤ c.toNat ∧ c.toNat ≤ 90
  · rw [if_pos hc] at ht; omega
  · rw [if_neg hc] at ht; omega

theorem isSchemeChar_lowerChar {c : Char} (h : isSchemeChar c = true) :
    isSchemeChar (lowerChar c) = true := by
  have ht := toNat_lowerChar c
  unfold isSchemeChar asciiAlpha asciiDigit at h ⊢
  simp only [Bool.or_eq_true, decide_eq_true_eq] at h ⊢
  by_cases hc : 65 ≤ c.toNat ∧ c.toNat ≤ 90
  · rw [if_pos hc] at ht; omega
  · rw [if_neg hc] at ht; omega

theorem isSchemeChar_of_alpha {c : Char} (h : asciiAlpha c = true) :
    isSchemeChar c = true := by
  unfold isSchemeChar
  rw [h]
  rfl

theorem isSchemeChar_ne_colon {c : Char} (h : isSchemeChar c = true) :
    c.toNat ≠ 58 := by
  unfold isSchemeChar asciiAlpha asciiDigit at h
  simp only [Bool.or_eq_true, decide_eq_true_eq] at h
  omega

theorem not_forbidden_facts {c : Char} (h : forbiddenHostChar c = false) :
    c.toNat ≠ 47 ∧ c.toNat ≠ 92 ∧ c.toNat ≠ 58 ∧ c.toNat ≠ 64 ∧
    c.toNat ≠ 63 ∧ c.toNat ≠ 35 := by
  unfold forbiddenHostChar at h
  simp only [decide_eq_false_iff_not] at h
  push_neg at h
  omega

theorem asciiDigit_toNat {c : Char} (h : asciiDigit c = true) :
    48 ≤ c.toNat ∧ c.toNat ≤ 57 := by
  unfold asciiDigit at h
  simpa using h

/-! ### Digit-string lemmas -/

theorem dropWhile_self_idem (p : α → Bool) (l : List α) :
    (l.dropWhile p).dropWhile p = l.dropWhile p := by
  induction l with
  | nil => rfl
  | cons c t ih =>
    by_cases h : p c = true
    · rw [List.dropWhile_cons_of_pos h]
      exact ih
    · rw [List.dropWhile_cons_of_neg (by simpa using h),
        List.dropWhile_cons_of_neg (by simpa using h)]

theorem map_eq_self_of_fixed {f : α → α} {l : List α} (h : ∀ x ∈ l, f x = x) :
    l.map f = l := by
  induction l with
  | nil => rfl
  | cons c t ih =>
    simp only [List.map_cons, h c (by simp)]
    rw [ih (fun x hx => h x (by simp [hx]))]

theorem digitsVal_cons (c : Char) (t : List Char) :
    digitsVal (c :: t) = (c :: t).foldl (fun a d => 10 * a + (d.toNat - 48)) 0 := rfl

theorem digitsVal_dropWhile_zeros (l : List Char) :
    digitsVal (l.dropWhile (fun c => decide (c.toNat = 48))) = digitsVal l := by
  induction l with
  | nil => rfl
  | cons c t ih =>
    by_cases h : c.toNat = 48
    · rw [List.dropWhile_cons_of_pos (by simpa using h)]
      rw [ih]
      show digitsVal t = List.foldl _ (10 * 0 + (c.toNat - 48)) t
      have : 10 * 0 + (c.toNat - 48) = 0 := by omega
      rw [this]
      rfl
    · rw [List.dropWhile_cons_of_neg (by simpa using h)]

theorem digitsVal_all_zeros {l : List Char}
    (h : l.dropWhile (fun c => decide (c.toNat = 48)) = []) : digitsVal l = 0 := by
  have := digitsVal_dropWhile_zeros l
  rw [h] at this
  exact this.symm

theorem digitsVal_dropLeadingZeros (l : List Char) :
    digitsVal (dropLeadingZeros l) = digitsVal l := by
  unfold dropLeadingZeros
  by_cases h : l.dropWhile (fun c => decide (c.toNat = 48)) = []
  · simp only [h, List.isEmpty_nil, if_pos]
    rw [digitsVal_all_zeros h]
    rfl
  · simp only [List.isEmpty_eq_true, h, if_neg, ite_false]
    exact digitsVal_dropWhile_zeros l

theorem dropLeadingZeros_idem (l : List Char) :
    dropLeadingZeros (dropLeadingZeros l) = dropLeadingZeros l := by
  by_cases h : l.dropWhile (fun c => decide (c.toNat = 48)) = []
  · have h1 : dropLeadingZeros l = [ '0' ] := by
      unfold dropLeadingZeros
      simp [h]
    rw [h1]
    decide
  · have h1 : dropLeadingZeros l = l.dropWhile (fun c => decide (c.toNat = 48)) := by
      unfold dropLeadingZeros
      simp [h]
    rw [h1]
    unfold dropLeadingZeros
    rw [dropWhile_self_idem]
    simp [h]

theorem dropLeadingZeros_ne_nil (l : List Char) : dropLeadingZeros l ≠ [] := by
  unfold dropLeadingZeros
  by_cases h : l.dropWhile (fun c => decide (c.toNat = 48)) = [] <;>
    simp [h]

theorem dropLeadingZeros_digits {l : List Char} (h : ∀ c ∈ l, asciiDigit c = true) :
    ∀ c ∈ dropLeadingZeros l, asciiDigit c = true := by
  unfold dropLeadingZeros
  by_cases hz : l.dropWhile (fun c => decide (c.toNat = 48)) = []
  · simp only [hz, List.isEmpty_nil, if_pos]
    intro c hc
    simp only [List.mem_singleton] at hc
    subst hc
    decide
  · simp only [List.isEmpty_eq_true, hz, if_neg, ite_false]
    intro c hc
    exact h c ((List.dropWhile_sublist _).subset hc)

/-! ### Scheme-scanner lemmas -/

theorem schemeSplit_sound :
    ∀ {l : List Char} {acc sch rest : List Char},
      schemeSplit acc l = some (sch, rest) →
      ∃ mid, sch = acc.reverse ++ mid ∧ ∀ d ∈ mid, isSchemeChar d = true := by
  intro l
  induction l with
  | nil => intro acc sch rest h; exact absurd h (by simp [schemeSplit])
  | cons c t ih =>
    intro acc sch rest h
    simp only [schemeSplit] at h
    by_cases hc : c.toNat = 58
    · rw [if_pos hc] at h
      obtain ⟨h1, h2⟩ := Prod.mk.inj (Option.some.inj h)
      refine ⟨[], ?_, by simp⟩
      rw [← h1]
      simp
    · rw [if_neg hc] at h
      by_cases hsc : isSchemeChar c = true
      · rw [if_pos hsc] at h
        obtain ⟨mid, hmid, hall⟩ := ih h
        refine ⟨c :: mid, ?_, ?_⟩
        · rw [hmid]
          simp
        · intro d hd
          rcases List.mem_cons.mp hd with rfl | hd
          · exact hsc
          · exact hall d hd
      · rw [if_neg hsc] at h
        exact absurd h (by simp)

theorem schemeSplit_append (mid R acc : List Char)
    (h : ∀ d ∈ mid, isSchemeChar d = true) :
    schemeSplit acc (mid ++ ':' :: R) = some (acc.reverse ++ mid, R) := by
  induction mid generalizing acc with
  | nil =>
    show schemeSplit acc (':' :: R) = _
    simp only [schemeSplit]
    rw [if_pos (by decide)]
    simp
  | cons d ds ih =>
    show schemeSplit acc (d :: (ds ++ ':' :: R)) = _
    simp only [schemeSplit]
    have hd : isSchemeChar d = true := h d (by simp)
    rw [if_neg (isSchemeChar_ne_colon hd), if_pos hd,
      ih (d :: acc) (fun x hx => h x (by simp [hx]))]
    simp

theorem splitScheme_sound {l sch rest : List Char}
    (h : splitScheme l = some (sch, rest)) :
    (∃ c mid, sch = c :: mid ∧ asciiAlpha c = true) ∧
    ∀ d ∈ sch, isSchemeChar d = true := by
  cases l with
  | nil => exact absurd h (by simp [splitScheme])
  | cons c t =>
    simp only [splitScheme] at h
    by_cases hc : asciiAlpha c = true
    · rw [if_pos hc] at h
      obtain ⟨mid, hmid, hall⟩ := schemeSplit_sound h
      simp only [List.reverse_singleton, List.singleton_append] at hmid
      refine ⟨⟨c, mid, hmid, hc⟩, ?_⟩
      intro d hd
      rw [hmid] at hd
      rcases List.mem_cons.mp hd with rfl | hd
      · exact isSchemeChar_of_alpha hc
      · exact hall d hd
    · rw [if_neg hc] at h
      exact absurd h (by simp)

theorem splitScheme_append {schL : List Char} (R : List Char) (hok : SchemeOK schL) :
    splitScheme (schL ++ ':' :: R) = some (schL, R) := by
  obtain ⟨c, mid, rfl, hα⟩ := hok.shape
  show splitScheme (c :: (mid ++ ':' :: R)) = _
  simp only [splitScheme]
  rw [if_pos hα, schemeSplit_append mid R [c]
    (fun d hd => hok.chars d (by simp [hd]))]
  rfl

/-! ### Authority lemmas -/

theorem afterLastAt_of_no_at {l : List Char} (h : ∀ c ∈ l, c.toNat ≠ 64) :
    afterLastAt l = l := by
  unfold afterLastAt
  have h1 : l.reverse.takeWhile (fun c => decide (c.toNat ≠ 64)) = l.reverse :=
    List.takeWhile_eq_self_iff.mpr (fun c hc => by
      simpa using h c (List.mem_reverse.mp hc))
  rw [h1, List.reverse_reverse]

theorem splitHostPort_no_colon {l : List Char} (h : ∀ c ∈ l, c.toNat ≠ 58) :
    splitHostPort l = (l, none) := by
  unfold splitHostPort
  have h1 : l.reverse.takeWhile (fun c => decide (c.toNat ≠ 58)) = l.reverse :=
    List.takeWhile_eq_self_iff.mpr (fun c hc => by
      simpa using h c (List.mem_reverse.mp hc))
  rw [h1, List.length_reverse, if_pos rfl]

theorem splitHostPort_split (host port : List Char)
    (hp : ∀ c ∈ port, c.toNat ≠ 58) :
    splitHostPort (host ++ ':' :: port) = (host, some port) := by
  have hrev : (host ++ ':' :: port).reverse = port.reverse ++ ':' :: host.reverse := by
    rw [List.reverse_append, List.reverse_cons]
    simp [List.append_assoc]
  have htw : (port.reverse ++ ':' :: host.reverse).takeWhile
      (fun c => decide (c.toNat ≠ 58)) = port.reverse := by
    rw [List.takeWhile_append_of_pos (fun c hc => by
        simpa using hp c (List.mem_reverse.mp hc)),
      List.takeWhile_cons]
    simp
  have hlen2 : (host ++ ':' :: port).length = host.length + (port.length + 1) := by
    simp [List.length_append]
  unfold splitHostPort
  rw [hrev, htw, List.length_reverse]
  rw [if_neg (by omega)]
  simp only [Prod.mk.injEq, List.reverse_reverse]
  constructor
  · have hcount : (host ++ ':' :: port).length - port.length - 1 = host.length := by
      omega
    rw [hcount]
    exact List.take_left' rfl
  · trivial

/-! ### parseHostPort soundness and round trip -/

theorem host_no_forbidden {h0 : List Char}
    (h1 : ¬ (h0.map lowerChar).any forbiddenHostChar = true) :
    ∀ ch ∈ h0.map lowerChar, forbiddenHostChar ch = false := by
  have hf : (h0.map lowerChar).any forbiddenHostChar = false := by
    simpa using h1
  intro ch hch
  simpa using List.any_eq_false.mp hf ch hch

theorem parseHostPortNoColon_sound {sch : String} {h0 : List Char} {host port : String}
    (h : parseHostPortNoColon sch h0 = some (host, port)) :
    host.data = h0.map lowerChar ∧ port = "" ∧
    (∀ ch ∈ host.data, forbiddenHostChar ch = false) ∧
    (isSpecialScheme sch = true → ¬ sch = "file" → host.data ≠ []) := by
  unfold parseHostPortNoColon at h
  split_ifs at h with h1 h2
  obtain ⟨hhost, hport⟩ := Prod.mk.inj (Option.some.inj h)
  subst hhost hport
  refine ⟨rfl, rfl, ?_, ?_⟩
  · intro ch hch
    exact host_no_forbidden h1 ch hch
  · intro hs hf hdata
    apply h2
    rw [hs]
    have hbeq : (sch == "file") = false := by
      simpa using hf
    rw [hbeq]
    have hempty : (h0.map lowerChar).isEmpty = true := by
      have : (String.mk (h0.map lowerChar)).data = [] := hdata
      simpa using this
    rw [hempty]
    rfl

theorem parseHostPortWithPort_sound {sch : String} {h0 p0 : List Char} {host port : String}
    (h : parseHostPortWithPort sch h0 p0 = some (host, port)) :
    host.data = h0.map lowerChar ∧ host.data ≠ [] ∧
    (∀ ch ∈ host.data, forbiddenHostChar ch = false) ∧
    (port = "" ∨
      (port.data ≠ [] ∧ (∀ ch ∈ port.data, asciiDigit ch = true) ∧
       dropLeadingZeros port.data = port.data ∧ digitsVal port.data ≤ 65535 ∧
       defaultPort sch ≠ some (digitsVal port.data))) := by
  unfold parseHostPortWithPort at h
  split_ifs at h with h1 h2 h3 h4 h5 h6
  case _ =>
    -- empty port branch
    obtain ⟨hhost, hport⟩ := Prod.mk.inj (Option.some.inj h)
    subst hhost hport
    refine ⟨rfl, ?_, ?_, Or.inl rfl⟩
    · intro hdata
      apply h1
      have : (String.mk (h0.map lowerChar)).data = [] := hdata
      simp only [List.map_eq_nil_iff] at this
      simp [this]
    · intro ch hch
      exact host_no_forbidden h2 ch hch
  case _ =>
    -- default-port branch
    obtain ⟨hhost, hport⟩ := Prod.mk.inj (Option.some.inj h)
    subst hhost hport
    refine ⟨rfl, ?_, ?_, Or.inl rfl⟩
    · intro hdata
      apply h1
      have : (String.mk (h0.map lowerChar)).data = [] := hdata
      simp only [List.map_eq_nil_iff] at this
      simp [this]
    · intro ch hch
      exact host_no_forbidden h2 ch hch
  case _ =>
    -- canonical-port branch
    obtain ⟨hhost, hport⟩ := Prod.mk.inj (Option.some.inj h)
    subst hhost hport
    have hdig : ∀ ch ∈ p0, asciiDigit ch = true := by
      intro ch hch
      exact List.all_eq_true.mp h4 ch hch
    refine ⟨rfl, ?_, ?_, Or.inr ⟨?_, ?_, ?_, ?_, ?_⟩⟩
    · intro hdata
      apply h1
      have : (String.mk (h0.map lowerChar)).data = [] := hdata
      simp only [List.map_eq_nil_iff] at this
      simp [this]
    · intro ch hch
      exact host_no_forbidden h2 ch hch
    · exact dropLeadingZeros_ne_nil p0
    · exact dropLeadingZeros_digits hdig
    · exact dropLeadingZeros_idem p0
    · rw [digitsVal_dropLeadingZeros]
      exact h5
    · rw [digitsVal_dropLeadingZeros]
      exact h6

theorem parseHostPort_sound {sch : String} {auth : List Char} {host port : String}
    (h : parseHostPort sch auth = some (host, port)) :
    (∀ ch ∈ host.data, forbiddenHostChar ch = false) ∧
    (∀ ch ∈ host.data, lowerChar ch = ch) ∧
    (isSpecialScheme sch = true → ¬ sch = "file" → host.data ≠ []) ∧
    (port = "" ∨
      (host.data ≠ [] ∧ port.data ≠ [] ∧ (∀ ch ∈ port.data, asciiDigit ch = true) ∧
       dropLeadingZeros port.data = port.data ∧ digitsVal port.data ≤ 65535 ∧
       defaultPort sch ≠ some (digitsVal port.data))) := by
  unfold parseHostPort at h
  rcases hsp : splitHostPort (afterLastAt auth) with ⟨h0, po⟩
  rw [hsp] at h
  have hostlow : ∀ {hd : String}, hd.data = h0.map lowerChar →
      ∀ ch ∈ hd.data, lowerChar ch = ch := by
    intro hd hdd ch hch
    rw [hdd] at hch
    obtain ⟨c0, _, rfl⟩ := List.mem_map.mp hch
    exact lowerChar_fixed c0
  cases po with
  | none =>
    obtain ⟨hd, hp, hforb, hne⟩ := parseHostPortNoColon_sound h
    exact ⟨hforb, hostlow hd, hne, Or.inl hp⟩
  | some p0 =>
    obtain ⟨hd, hne, hforb, hrest⟩ := parseHostPortWithPort_sound h
    refine ⟨hforb, hostlow hd, fun _ _ => hne, ?_⟩
    rcases hrest with rfl | ⟨a, b, c, d, e⟩
    · exact Or.inl rfl
    · exact Or.inr ⟨hne, a, b, c, d, e⟩

theorem parseHostPort_roundtrip (sch : String) (host port : String)
    (hforb : ∀ ch ∈ host.data, forbiddenHostChar ch = false)
    (hlow : ∀ ch ∈ host.data, lowerChar ch = ch)
    (hne : isSpecialScheme sch = true → ¬ sch = "file" → host.data ≠ [])
    (hport : port = "" ∨
      (host.data ≠ [] ∧ port.data ≠ [] ∧ (∀ ch ∈ port.data, asciiDigit ch = true) ∧
       dropLeadingZeros port.data = port.data ∧ digitsVal port.data ≤ 65535 ∧
       defaultPort sch ≠ some (digitsVal port.data))) :
    parseHostPort sch (host.data ++ portSuffix port) = some (host, port) := by
  have hmap : host.data.map lowerChar = host.data := map_eq_self_of_fixed hlow
  have hanyf : host.data.any forbiddenHostChar = false :=
    List.any_eq_false.mpr (fun ch hch => by simp [hforb ch hch])
  rcases hport with rfl | ⟨hhne, hpne, hdig, hdlz, hle, hdef⟩
  · have hsuffix : portSuffix "" = [] := by
      unfold portSuffix
      rw [if_pos rfl]
    rw [hsuffix, List.append_nil]
    unfold parseHostPort
    have hat : afterLastAt host.data = host.data :=
      afterLastAt_of_no_at (fun c hc => (not_forbidden_facts (hforb c hc)).2.2.2.1)
    rw [hat, splitHostPort_no_colon
      (fun c hc => (not_forbidden_facts (hforb c hc)).2.2.1)]
    show parseHostPortNoColon sch host.data = _
    unfold parseHostPortNoColon
    rw [hmap]
    have hcond : (isSpecialScheme sch && !(sch == "file") && host.data.isEmpty) = false := by
      by_cases hs : isSpecialScheme sch = true
      · by_cases hf : sch = "file"
        · have hbeq : (sch == "file") = true := by simp [hf]
          simp [hbeq]
        · have h1 : host.data.isEmpty = false := by
            simpa using hne hs hf
          simp [h1]
      · have hs' : isSpecialScheme sch = false := by
          simpa using hs
        simp [hs']
    rw [hanyf, hcond]
    rfl
  · have hpne' : ¬ port = "" := by
      intro hh
      rw [hh] at hpne
      exact hpne rfl
    have hsuffix : portSuffix port = ':' :: port.data := by
      unfold portSuffix
      rw [if_neg hpne']
    rw [hsuffix]
    unfold parseHostPort
    have hat : afterLastAt (host.data ++ ':' :: port.data) =
        host.data ++ ':' :: port.data := by
      apply afterLastAt_of_no_at
      intro c hc
      rcases List.mem_append.mp hc with hc | hc
      · exact (not_forbidden_facts (hforb c hc)).2.2.2.1
      · rcases List.mem_cons.mp hc with rfl | hc
        · decide
        · have := asciiDigit_toNat (hdig c hc)
          omega
    rw [hat, splitHostPort_split host.data port.data
      (fun c hc => by
        have := asciiDigit_toNat (hdig c hc)
        omega)]
    show parseHostPortWithPort sch host.data port.data = _
    unfold parseHostPortWithPort
    have hhE : host.data.isEmpty = false := by
      simpa using hhne
    have hpE : port.data.isEmpty = false := by
      simpa using hpne
    have hall : port.data.all asciiDigit = true := List.all_eq_true.mpr hdig
    rw [hhE, hmap, hanyf, hpE, hall]
    show (if digitsVal port.data ≤ 65535 then _ else none) = _
    rw [if_pos hle, if_neg hdef, hdlz]

/-! ### parseURL soundness and round trip -/

theorem authStop_eq_false_of_not_forbidden {c : Char}
    (h : forbiddenHostChar c = false) : authStop c = false := by
  have hf := not_forbidden_facts h
  unfold authStop
  simp only [decide_eq_false_iff_not]
  omega

theorem parseAuthorityRest_sound {protocol sch : String} {special : Bool}
    {r : List Char} {u : URLRec}
    (h : parseAuthorityRest protocol sch special r = some u) :
    u.protocol = protocol ∧
    parseHostPort sch (r.takeWhile (fun c => !(authStop c))) =
      some (u.hostname, u.port) := by
  unfold parseAuthorityRest at h
  rcases hph : parseHostPort sch (r.takeWhile (fun c => !(authStop c))) with _ | ⟨host, port⟩
  · rw [hph] at h
    exact absurd h (by simp)
  · rw [hph] at h
    obtain rfl := (Option.some.inj h).symm
    exact ⟨rfl, rfl⟩

theorem parseAuthorityRest_roundtrip (schL : List Char) (sp : Bool) (host port : String)
    (hforb : ∀ ch ∈ host.data, forbiddenHostChar ch = false)
    (hlow : ∀ ch ∈ host.data, lowerChar ch = ch)
    (hne : isSpecialScheme (String.mk schL) = true → ¬ String.mk schL = "file" →
      host.data ≠ [])
    (hport : port = "" ∨
      (host.data ≠ [] ∧ port.data ≠ [] ∧ (∀ ch ∈ port.data, asciiDigit ch = true) ∧
       dropLeadingZeros port.data = port.data ∧ digitsVal port.data ≤ 65535 ∧
       defaultPort (String.mk schL) ≠ some (digitsVal port.data))) :
    parseAuthorityRest (String.mk (schL ++ [ ':' ])) (String.mk schL) sp
        (host.data ++ portSuffix port) =
      some ⟨String.mk (schL ++ [ ':' ]), host, port,
        String.mk (if sp then [ '/' ] else [])⟩ := by
  have htw : (host.data ++ portSuffix port).takeWhile (fun c => !(authStop c)) =
      host.data ++ portSuffix port := by
    apply List.takeWhile_eq_self_iff.mpr
    intro c hc
    suffices hs : authStop c = false by simp [hs]
    rcases List.mem_append.mp hc with hc | hc
    · exact authStop_eq_false_of_not_forbidden (hforb c hc)
    · rcases hport with rfl | ⟨_, hpne, hdig, _, _, _⟩
      · rw [show portSuffix "" = [] from by unfold portSuffix; rw [if_pos rfl]] at hc
        exact absurd hc (List.not_mem_nil c)
      · have hpne' : ¬ port = "" := fun hh => hpne (by rw [hh])
        rw [show portSuffix port = ':' :: port.data from by
          unfold portSuffix; rw [if_neg hpne']] at hc
        rcases List.mem_cons.mp hc with rfl | hc
        · decide
        · have := asciiDigit_toNat (hdig c hc)
          unfold authStop
          simp only [decide_eq_false_iff_not]
          omega
  unfold parseAuthorityRest
  rw [htw, parseHostPort_roundtrip _ host port hforb hlow hne hport, List.drop_length]
  cases sp <;> rfl

theorem data_of_string_empty : ( "" : String).data = [] := rfl

theorem parseURL_sound {x : String} {u : URLRec} (h : parseURL x = some u) :
    ∃ schL, GoodURL u schL := by
  unfold parseURL at h
  rcases hs : splitScheme x.data with _ | ⟨sch0, rest⟩
  · rw [hs] at h
    exact absurd h (by simp)
  · rw [hs] at h
    obtain ⟨⟨c0, mid0, hsch0, hα⟩, hall⟩ := splitScheme_sound hs
    refine ⟨sch0.map lowerChar, ?_⟩
    have hok : SchemeOK (sch0.map lowerChar) := by
      refine ⟨⟨lowerChar c0, mid0.map lowerChar, by rw [hsch0]; simp,
        asciiAlpha_lowerChar hα⟩, ?_, ?_⟩
      · intro d hd
        obtain ⟨e, he, rfl⟩ := List.mem_map.mp hd
        exact isSchemeChar_lowerChar (hall e he)
      · intro d hd
        obtain ⟨e, he, rfl⟩ := List.mem_map.mp hd
        exact lowerChar_fixed e
    replace h : parseURLCore (sch0.map lowerChar) rest = some u := h
    unfold parseURLCore at h
    by_cases hsp : isSpecialScheme (String.mk (sch0.map lowerChar)) = true
    · rw [if_pos hsp] at h
      by_cases hf : String.mk (sch0.map lowerChar) = "file"
      · rw [if_pos hf] at h
        by_cases hsw : startsWithSlashes rest = true
        · rw [if_pos hsw] at h
          obtain ⟨hproto, hph⟩ := parseAuthorityRest_sound h
          obtain ⟨hforb, hlow, hne, hport⟩ := parseHostPort_sound hph
          exact ⟨hproto, hok, hforb, hlow, hne, hport⟩
        · rw [if_neg hsw] at h
          obtain rfl := (Option.some.inj h).symm
          refine ⟨rfl, hok, ?_, ?_, ?_, Or.inl rfl⟩
          · intro ch hch
            rw [data_of_string_empty] at hch
            exact absurd hch (List.not_mem_nil ch)
          · intro ch hch
            rw [data_of_string_empty] at hch
            exact absurd hch (List.not_mem_nil ch)
          · intro _ hf'
            exact absurd hf hf'
      · rw [if_neg hf] at h
        obtain ⟨hproto, hph⟩ := parseAuthorityRest_sound h
        obtain ⟨hforb, hlow, hne, hport⟩ := parseHostPort_sound hph
        exact ⟨hproto, hok, hforb, hlow, hne, hport⟩
    · rw [if_neg hsp] at h
      by_cases hsw : startsWithSlashes rest = true
      · rw [if_pos hsw] at h
        obtain ⟨hproto, hph⟩ := parseAuthorityRest_sound h
        obtain ⟨hforb, hlow, hne, hport⟩ := parseHostPort_sound hph
        exact ⟨hproto, hok, hforb, hlow, hne, hport⟩
      · rw [if_neg hsw] at h
        obtain rfl := (Option.some.inj h).symm
        refine ⟨rfl, hok, ?_, ?_, ?_, Or.inl rfl⟩
        · intro ch hch
          rw [data_of_string_empty] at hch
          exact absurd hch (List.not_mem_nil ch)
        · intro ch hch
          rw [data_of_string_empty] at hch
          exact absurd hch (List.not_mem_nil ch)
        · intro hs' _
          exact absurd hs' hsp

theorem originOf_data {u : URLRec} {schL : List Char} (g : GoodURL u schL) :
    (originOf u).data =
      schL ++ ':' :: '/' :: '/' :: (u.hostname.data ++ portSuffix u.port) := by
  unfold originOf portSuffix
  by_cases hp : u.port = ""
  · rw [if_pos hp, if_pos hp]
    rw [String.data_append, String.data_append, String.data_append, g.proto]
    show (schL ++ [ ':' ]) ++ [ '/', '/' ] ++ u.hostname.data ++ ([] : List Char) = _
    simp [List.append_assoc]
  · rw [if_neg hp, if_neg hp]
    rw [String.data_append, String.data_append, String.data_append,
      String.data_append, g.proto]
    show (schL ++ [ ':' ]) ++ [ '/', '/' ] ++ u.hostname.data ++
      ([ ':' ] ++ u.port.data) = _
    simp [List.append_assoc]

theorem parseURL_roundtrip {u : URLRec} {schL : List Char} (g : GoodURL u schL) :
    parseURL (originOf u) =
      some ⟨u.protocol, u.hostname, u.port,
        String.mk (if isSpecialScheme (String.mk schL) then [ '/' ] else [])⟩ := by
  have hdata := originOf_data g
  unfold parseURL
  rw [hdata, splitScheme_append _ g.scheme_ok]
  show parseURLCore (schL.map lowerChar)
    ('/' :: '/' :: (u.hostname.data ++ portSuffix u.port)) = _
  rw [map_eq_self_of_fixed g.scheme_ok.low]
  unfold parseURLCore
  by_cases hsp : isSpecialScheme (String.mk schL) = true
  · rw [if_pos hsp]
    by_cases hf : String.mk schL = "file"
    · rw [if_pos hf, if_pos (show startsWithSlashes
        ('/' :: '/' :: (u.hostname.data ++ portSuffix u.port)) = true from rfl)]
      show parseAuthorityRest _ _ true (u.hostname.data ++ portSuffix u.port) = _
      rw [parseAuthorityRest_roundtrip schL true u.hostname u.port g.host_forb
        g.host_low g.host_ne g.port_ok, if_pos hsp, g.proto]
      rfl
    · rw [if_neg hf]
      have hhne := g.host_ne hsp hf
      obtain ⟨c0, tl, hu⟩ : ∃ c0 tl, u.hostname.data = c0 :: tl := by
        rcases hl : u.hostname.data with _ | ⟨a, b⟩
        · exact absurd hl hhne
        · exact ⟨a, b, rfl⟩
      have hc0 : forbiddenHostChar c0 = false :=
        g.host_forb c0 (by rw [hu]; exact List.mem_cons_self c0 tl)
      have hfacts := not_forbidden_facts hc0
      have hpc0 : (fun c => decide (c.toNat = 47 ∨ c.toNat = 92)) c0 = false := by
        simp only [decide_eq_false_iff_not]
        omega
      have hdw : ('/' :: '/' :: (u.hostname.data ++ portSuffix u.port)).dropWhile
          (fun c => decide (c.toNat = 47 ∨ c.toNat = 92)) =
          u.hostname.data ++ portSuffix u.port := by
        rw [List.dropWhile_cons_of_pos (by decide),
          List.dropWhile_cons_of_pos (by decide), hu, List.cons_append,
          List.dropWhile_cons_of_neg (by simp [hpc0])]
      rw [hdw, parseAuthorityRest_roundtrip schL true u.hostname u.port g.host_forb
        g.host_low g.host_ne g.port_ok, if_pos hsp, g.proto]
      rfl
  · rw [if_neg hsp, if_pos (show startsWithSlashes
      ('/' :: '/' :: (u.hostname.data ++ portSuffix u.port)) = true from rfl)]
    show parseAuthorityRest _ _ false (u.hostname.data ++ portSuffix u.port) = _
    rw [parseAuthorityRest_roundtrip schL false u.hostname u.port g.host_forb
      g.host_low g.host_ne g.port_ok, if_neg hsp, g.proto]
    rfl

/-! ### normalizeEndpoint lemmas -/

theorem normalizeEndpoint_parsed {x : String} {u : URLRec}
    (h : parseURL x = some u) : normalizeEndpoint x = some (originOf u) := by
  have hne : ¬ x = "" := by
    intro hx
    rw [hx] at h
    have h0 : parseURL "" = none := by decide
    rw [h0] at h
    exact Option.noConfusion h
  unfold normalizeEndpoint
  rw [if_neg hne, h]

theorem normalizeEndpoint_origin_idem {u : URLRec} {schL : List Char}
    (g : GoodURL u schL) : normalizeEndpoint (originOf u) = some (originOf u) := by
  have hr := parseURL_roundtrip g
  have hne : ¬ originOf u = "" := by
    intro he
    have hd := congrArg String.data he
    rw [originOf_data g] at hd
    have hnil : schL ++ ':' :: '/' :: '/' :: (u.hostname.data ++ portSuffix u.port) =
        ([] : List Char) := hd
    exact absurd hnil (by simp)
  unfold normalizeEndpoint
  rw [if_neg hne, hr]
  show some (originOf ⟨u.protocol, u.hostname, u.port, _⟩) = some (originOf u)
  unfold originOf
  rfl

/-! ### Orchestration lemmas -/

theorem discoverStep_launched (probe : String → Nat → String → ProbeOutcome)
    (vcalls : List String) (sr : StartRun) (q : QueryResult) :
    (discoverStep probe vcalls sr q).launched = sr.launched := by
  unfold discoverStep
  split
  · rfl
  · split_ifs <;> rfl

theorem discoverStep_queriesUsed (probe : String → Nat → String → ProbeOutcome)
    (vcalls : List String) (sr : StartRun) (q : QueryResult) :
    (discoverStep probe vcalls sr q).queriesUsed = sr.queriesUsed + 1 := by
  unfold discoverStep
  split
  · rfl
  · split_ifs <;> rfl

theorem discoverStep_verifyCalls (probe : String → Nat → String → ProbeOutcome)
    (vcalls : List String) (sr : StartRun) (q : QueryResult) (e : String)
    (hq : q.endpoint = some e) (hne : ¬ e = "") :
    (discoverStep probe vcalls sr q).verifyCalls = vcalls ++ [e] := by
  unfold discoverStep
  split
  · next heq =>
    rw [hq] at heq
    exact Option.noConfusion heq
  · next e2 heq =>
    rw [hq] at heq
    obtain rfl := Option.some.inj heq
    rw [if_neg hne]
    split_ifs <;> rfl

theorem discoverStep_failed_verify (probe : String → Nat → String → ProbeOutcome)
    (vcalls : List String) (sr : StartRun) (q : QueryResult) (e : String)
    (hq : q.endpoint = some e) (hne : ¬ e = "")
    (hv : verifyEndpoint e defaultProbeTimeoutMs probe = false) :
    (discoverStep probe vcalls sr q).result = ⟨some e, q.port, false⟩ ∧
    (discoverStep probe vcalls sr q).cacheWritten = none := by
  unfold discoverStep
  split
  · next heq =>
    rw [hq] at heq
    exact Option.noConfusion heq
  · next e2 heq =>
    rw [hq] at heq
    obtain rfl := Option.some.inj heq
    rw [if_neg hne, if_neg (by simp [hv])]
    exact ⟨rfl, rfl⟩

theorem discover_cache_none {cache : Option CacheFile} {now : Int}
    (probe : String → Nat → String → ProbeOutcome) (trace : List QueryResult)
    (hc : readCachedEndpoint cache now = none) :
    discoverFoundryService cache now probe trace = discoverAfterCache probe trace [] := by
  unfold discoverFoundryService
  rw [hc]

theorem discover_cache_some {cache : Option CacheFile} {now : Int} {ce : String}
    (probe : String → Nat → String → ProbeOutcome) (trace : List QueryResult)
    (hc : readCachedEndpoint cache now = some ce) :
    discoverFoundryService cache now probe trace =
      (if verifyEndpoint ce defaultProbeTimeoutMs probe then
        ⟨⟨some ce, none, true⟩, false, none, [ce], 0⟩
       else discoverAfterCache probe trace [ce]) := by
  unfold discoverFoundryService
  rw [hc]

theorem discover_reaches_step (cache : Option CacheFile) (now : Int)
    (probe : String → Nat → String → ProbeOutcome) (trace : List QueryResult)
    (hcache : ∀ ce, readCachedEndpoint cache now = some ce →
      verifyEndpoint ce defaultProbeTimeoutMs probe = false) :
    ∃ vcalls, discoverFoundryService cache now probe trace =
      discoverAfterCache probe trace vcalls := by
  cases hrc : readCachedEndpoint cache now with
  | none => exact ⟨[], discover_cache_none probe trace hrc⟩
  | some ce =>
    refine ⟨[ce], ?_⟩
    rw [discover_cache_some probe trace hrc, if_neg (by simp [hcache ce hrc])]

theorem pollLoop_exhaust : ∀ (n : Nat) (t : List QueryResult) (used : Nat),
    (∀ q ∈ t.take n, isReady q = false) →
    pollLoop n t used =
      ⟨⟨false, false, "Service start timeout - please check manually"⟩,
       true, used + n, t.drop n⟩ := by
  intro n
  induction n with
  | zero =>
    intro t used _
    simp [pollLoop]
  | succ n ih =>
    intro t used h
    unfold pollLoop
    have harith : used + 1 + n = used + (n + 1) := by omega
    cases t with
    | nil =>
      rw [if_neg (by decide),
        show (nextQuery ([] : List QueryResult)).2 = [] from rfl,
        ih [] (used + 1) (by simp), harith, List.drop_nil, List.drop_nil]
    | cons q t2 =>
      have hr : isReady q = false := h q (by simp [List.take_succ_cons])
      rw [show (nextQuery (q :: t2)).1 = q from rfl,
        show (nextQuery (q :: t2)).2 = t2 from rfl, if_neg (by simp [hr])]
      rw [ih t2 (used + 1) (fun x hx => h x (by simp [List.take_succ_cons, hx]))]
      rw [harith, List.drop_succ_cons]

theorem start_exhaust {trace : List QueryResult}
    (hfail : ∀ q ∈ trace.take 61, isReady q = false) :
    startFoundryService trace =
      ⟨⟨false, false, "Service start timeout - please check manually"⟩,
       true, 61, trace.drop 61⟩ := by
  unfold startFoundryService maxRetries
  cases trace with
  | nil =>
    rw [if_neg (by decide),
      show (nextQuery ([] : List QueryResult)).2 = [] from rfl,
      pollLoop_exhaust 60 [] 1 (by simp), List.drop_nil, List.drop_nil]
  | cons q t2 =>
    have hr : isReady q = false := hfail q (by simp [List.take_succ_cons])
    rw [show (nextQuery (q :: t2)).1 = q from rfl,
      show (nextQuery (q :: t2)).2 = t2 from rfl, if_neg (by simp [hr])]
    rw [pollLoop_exhaust 60 t2 1
      (fun x hx => hfail x (by simp [List.take_succ_cons, hx]))]
    rfl

/-! ### Running-implies-endpoint lemmas -/

theorem textScan_cases (stdout : String) :
    (textScan stdout).isRunning = false ∨
    ∃ s, (textScan stdout).endpoint = some s := by
  unfold textScan
  split
  · exact Or.inr ⟨_, rfl⟩
  · split
    · exact Or.inr ⟨_, rfl⟩
    · split
      · exact Or.inr ⟨_, rfl⟩
      · exact Or.inl rfl

theorem tryUrlField_cases (j : CLIStatus) (stdout : String) :
    (tryUrlField j stdout).isRunning = false ∨
    ∃ s, (tryUrlField j stdout).endpoint = some s := by
  unfold tryUrlField
  split
  · next u heq =>
    by_cases hue : u = ""
    · rw [if_pos hue]
      exact textScan_cases stdout
    · rw [if_neg hue]
      exact Or.inr ⟨u, rfl⟩
  · exact textScan_cases stdout

theorem parseJSONStatus_cases (j : CLIStatus) (stdout : String) :
    (parseJSONStatus j stdout).isRunning = false ∨
    ∃ s, (parseJSONStatus j stdout).endpoint = some s := by
  unfold parseJSONStatus
  split
  · next p heq =>
    by_cases hz : p = 0
    · rw [if_pos hz]
      exact tryUrlField_cases j stdout
    · rw [if_neg hz]
      exact Or.inr ⟨_, rfl⟩
  · exact tryUrlField_cases j stdout

theorem parseCLIOutput_endpoint_of_running {json : Option CLIStatus} {stdout : String}
    (h : (parseCLIOutput json stdout).isRunning = true) :
    ∃ s, (parseCLIOutput json stdout).endpoint = some s := by
  cases json with
  | none =>
    rcases textScan_cases stdout with hf | hs
    · exact absurd (show (textScan stdout).isRunning = true from h) (by simp [hf])
    · exact hs
  | some j =>
    rcases parseJSONStatus_cases j stdout with hf | hs
    · exact absurd (show (parseJSONStatus j stdout).isRunning = true from h) (by simp [hf])
    · exact hs

theorem discoverStep_cases (probe : String → Nat → String → ProbeOutcome)
    (vcalls : List String) (sr : StartRun) (q : QueryResult) :
    (discoverStep probe vcalls sr q).result.isRunning = false ∨
    ∃ s, (discoverStep probe vcalls sr q).result.endpoint = some s := by
  unfold discoverStep
  split
  · exact Or.inl rfl
  · next e heq =>
    by_cases he : e = ""
    · rw [if_pos he]
      exact Or.inl rfl
    · rw [if_neg he]
      by_cases hv : verifyEndpoint e defaultProbeTimeoutMs probe = true
      · rw [if_pos hv]
        exact Or.inr ⟨e, rfl⟩
      · rw [if_neg hv]
        exact Or.inr ⟨e, rfl⟩

theorem discover_endpoint_of_running {cache : Option CacheFile} {now : Int}
    {probe : String → Nat → String → ProbeOutcome} {trace : List QueryResult}
    (h : (discoverFoundryService cache now probe trace).result.isRunning = true) :
    ∃ s, (discoverFoundryService cache now probe trace).result.endpoint = some s := by
  cases hrc : readCachedEndpoint cache now with
  | none =>
    rw [discover_cache_none probe trace hrc] at h ⊢
    unfold discoverAfterCache at h ⊢
    rcases discoverStep_cases probe [] (startFoundryService trace)
        (nextQuery (startFoundryService trace).rest).1 with hf | hs
    · exact absurd h (by simp [hf])
    · exact hs
  | some ce =>
    rw [discover_cache_some probe trace hrc] at h ⊢
    by_cases hv : verifyEndpoint ce defaultProbeTimeoutMs probe = true
    · rw [if_pos hv]
      exact ⟨ce, rfl⟩
    · rw [if_neg hv] at h ⊢
      unfold discoverAfterCache at h ⊢
      rcases discoverStep_cases probe [ce] (startFoundryService trace)
          (nextQuery (startFoundryService trace).rest).1 with hf | hs
      · exact absurd h (by simp [hf])
      · exact hs

/-! ### The claims -/

/-- C1, counterexample: `normalizeEndpoint("https://h:443/some/path/")` is
not `"http://h:443"` — the URL branch keeps the `https` scheme and the URL
parser drops the default port 443, so the code returns `"https://h"`. -/
theorem c1_counterexample :
    normalizeEndpoint "https://h:443/some/path/" ≠ some "http://h:443" := by
  decide

/-- C1, amended: `normalizeEndpoint("https://h:443/some/path/")` returns
`"https://h"`; in general, for every endpoint string that parses as a URL,
the returned value is the origin with the path removed, the scheme
preserved (https is not rewritten to http on this branch) and a default
port omitted. -/
theorem c1_normalize_origin :
    normalizeEndpoint "https://h:443/some/path/" = some "https://h" ∧
    ∀ (x : String) (u : URLRec), parseURL x = some u →
      normalizeEndpoint x = some (originOf u) := by
  exact ⟨by decide, fun x u h => normalizeEndpoint_parsed h⟩

/-- Witness for C1's amended theorem at a concrete input. -/
theorem c1_normalize_origin_witness :
    parseURL "http://a:1/p" = some ⟨ "http:", "a", "1", "/p"⟩ ∧
    normalizeEndpoint "http://a:1/p" = some "http://a:1" := by
  refine ⟨by decide, ?_⟩
  have h := c1_normalize_origin.2 "http://a:1/p" ⟨ "http:", "a", "1", "/p"⟩ (by decide)
  rw [h]
  decide

/-- C2, counterexample: on status text containing
`http://127.0.0.1:55329/openai/status` the extracted endpoint is not the
full URL with its path — the regex `/http[s]?:\/\/[^\s\/]+:\d+/` stops
before the first slash after the authority. -/
theorem c2_counterexample :
    (parseCLIOutput none
        "Service is running on http://127.0.0.1:55329/openai/status").endpoint ≠
      some "http://127.0.0.1:55329/openai/status" := by
  decide

/-- C2, amended: the text-scanning fallback yields the URL truncated at
the path, `http://127.0.0.1:55329`, with `port = 55329` and
`isRunning = true`. -/
theorem c2_text_url_extraction :
    parseCLIOutput none
        "Service is running on http://127.0.0.1:55329/openai/status" =
      ⟨some "http://127.0.0.1:55329", some 55329, true,
       "Service is running on http://127.0.0.1:55329/openai/status"⟩ := by
  decide

/-- C3: an endpoint cached at time `T` (a positive `Date.now()` value) is
returned by a read at `now` exactly when `now < T + 24h`, and the read
returns `null` otherwise — in particular it is present at `T + 23h59m`
and absent at `T + 24h1m`. -/
theorem c3_cache_freshness (e : String) (T now : Int) (prev : Option CacheFile)
    (he : e ≠ "") (hT : 0 < T) :
    readCachedEndpoint (cacheEndpoint e T prev) now =
      (if now < T + cacheFreshnessMs then some e else none) := by
  unfold cacheEndpoint
  rw [if_neg he]
  show readCachedEndpoint (some ⟨e, T⟩) now = _
  unfold readCachedEndpoint
  show (if e ≠ "" ∧ T ≠ 0 then
      (if now - T < cacheFreshnessMs then some e else none) else none) = _
  rw [if_pos (show e ≠ "" ∧ T ≠ 0 from ⟨he, by omega⟩)]
  by_cases h : now - T < cacheFreshnessMs
  · rw [if_pos h, if_pos (show now < T + cacheFreshnessMs by omega)]
  · rw [if_neg h, if_neg (show ¬ now < T + cacheFreshnessMs by omega)]

/-- Witness for C3 at the two instants the claim names: present at
`T + 23h59m`, absent at `T + 24h1m`. -/
theorem c3_cache_freshness_witness :
    readCachedEndpoint (cacheEndpoint "http://127.0.0.1:52114" 1000 none)
      (1000 + 86340000) = some "http://127.0.0.1:52114" ∧
    readCachedEndpoint (cacheEndpoint "http://127.0.0.1:52114" 1000 none)
      (1000 + 86460000) = none := by
  constructor
  · rw [c3_cache_freshness "http://127.0.0.1:52114" 1000 (1000 + 86340000) none
      (by decide) (by decide)]
    decide
  · rw [c3_cache_freshness "http://127.0.0.1:52114" 1000 (1000 + 86460000) none
      (by decide) (by decide)]
    decide

/-- C4: when the very first status query reports running with a non-empty
endpoint, `startFoundryService` returns
`{started: false, wasAlreadyRunning: true}` having consumed one query and
never issuing the launch command; and with an empty cache,
`discoverFoundryService` on such a trace never launches either. -/
theorem c4_already_running (q : QueryResult) (t : List QueryResult) (e : String)
    (hrun : q.isRunning = true) (hep : q.endpoint = some e) (hne : e ≠ "") :
    startFoundryService (q :: t) =
      ⟨⟨false, true, "Service already running on " ++ e⟩, false, 1, t⟩ ∧
    ∀ (cache : Option CacheFile) (now : Int)
      (probe : String → Nat → String → ProbeOutcome),
      readCachedEndpoint cache now = none →
      (discoverFoundryService cache now probe (q :: t)).launched = false := by
  have hready : isReady q = true := by
    unfold isReady
    rw [hrun, hep]
    simp [hne]
  have hstart : startFoundryService (q :: t) =
      ⟨⟨false, true, "Service already running on " ++ e⟩, false, 1, t⟩ := by
    unfold startFoundryService
    rw [show (nextQuery (q :: t)).1 = q from rfl,
      show (nextQuery (q :: t)).2 = t from rfl, if_pos hready, hep]
    rfl
  refine ⟨hstart, ?_⟩
  intro cache now probe hcache
  rw [discover_cache_none probe (q :: t) hcache]
  unfold discoverAfterCache
  rw [discoverStep_launched, hstart]

/-- Witness for C4 at a concrete one-element trace. -/
theorem c4_already_running_witness :
    startFoundryService [⟨some "http://127.0.0.1:5", some 5, true, "r"⟩] =
      ⟨⟨false, true, "Service already running on http://127.0.0.1:5"⟩,
       false, 1, []⟩ ∧
    (discoverFoundryService none 0 (fun _ _ _ => .response)
      [⟨some "http://127.0.0.1:5", some 5, true, "r"⟩]).launched = false := by
  have h := c4_already_running ⟨some "http://127.0.0.1:5", some 5, true, "r"⟩ []
    "http://127.0.0.1:5" rfl rfl (by decide)
  exact ⟨h.1, h.2 none 0 (fun _ _ _ => .response) rfl⟩

/-- C5: when the cache fast path is not taken and the endpoint obtained
from the final status query fails liveness verification,
`discoverFoundryService` returns a structured result that still carries
that endpoint with `isRunning = false`, and the cache is not written. -/
theorem c5_verification_failure (cache : Option CacheFile) (now : Int)
    (probe : String → Nat → String → ProbeOutcome) (trace : List QueryResult)
    (e : String)
    (hcache : ∀ ce, readCachedEndpoint cache now = some ce →
      verifyEndpoint ce defaultProbeTimeoutMs probe = false)
    (hq : (nextQuery (startFoundryService trace).rest).1.endpoint = some e)
    (hne : e ≠ "")
    (hv : verifyEndpoint e defaultProbeTimeoutMs probe = false) :
    (discoverFoundryService cache now probe trace).result =
      ⟨some e, (nextQuery (startFoundryService trace).rest).1.port, false⟩ ∧
    (discoverFoundryService cache now probe trace).cacheWritten = none := by
  obtain ⟨vcalls, hD⟩ := discover_reaches_step cache now probe trace hcache
  rw [hD]
  unfold discoverAfterCache
  exact discoverStep_failed_verify probe vcalls (startFoundryService trace)
    (nextQuery (startFoundryService trace).rest).1 e hq hne hv

/-- Witness for C5 at a concrete trace whose final query carries an
endpoint that the probe then rejects. -/
theorem c5_verification_failure_witness :
    (discoverFoundryService none 0 (fun _ _ _ => .netError)
      [⟨some "http://127.0.0.1:5", some 5, true, "r"⟩,
       ⟨some "http://127.0.0.1:5", some 5, true, "r"⟩]).result =
      ⟨some "http://127.0.0.1:5", some 5, false⟩ ∧
    (discoverFoundryService none 0 (fun _ _ _ => .netError)
      [⟨some "http://127.0.0.1:5", some 5, true, "r"⟩,
       ⟨some "http://127.0.0.1:5", some 5, true, "r"⟩]).cacheWritten = none := by
  exact c5_verification_failure none 0 (fun _ _ _ => .netError)
    [⟨some "http://127.0.0.1:5", some 5, true, "r"⟩,
     ⟨some "http://127.0.0.1:5", some 5, true, "r"⟩]
    "http://127.0.0.1:5" (fun ce hce => by cases hce) (by decide) (by decide)
    (by decide)

/-- C6, counterexample: for the well-formed JSON
`{"port": 0, "status": "stopped"}` the claim predicts `isRunning = false`
(the status is not `"running"` and there is no `running: true`), but the
truthiness test `if (jsonOutput.port)` skips the port branch for 0 and the
text-scanning fallback reports `isRunning = true`. -/
theorem c6_counterexample :
    (((⟨some 0, none, some "stopped", none⟩ : CLIStatus).status ==
        some "running") ||
      ((⟨some 0, none, some "stopped", none⟩ : CLIStatus).running ==
        some true)) = false ∧
    (parseCLIOutput (some ⟨some 0, none, some "stopped", none⟩)
        "\x7b\"port\": 0, \"status\": \"stopped\"\x7d").isRunning = true := by
  exact ⟨by decide, by decide⟩

/-- C6, amended: for every decoded JSON status object with a numeric,
non-zero `port` field `P`, the parser returns
`endpoint = "http://127.0.0.1:<P>"`, `port = P`, and `isRunning` true iff
the `status` field equals `"running"` or the `running` field is `true`;
a port of 0 instead falls through to text scanning. -/
theorem c6_json_port (j : CLIStatus) (p : Int) (stdout : String)
    (hp : j.port = some p) (hnz : p ≠ 0) :
    parseCLIOutput (some j) stdout =
      ⟨some ( "http://127.0.0.1:" ++ toString p), some p,
       (j.status == some "running" || j.running == some true), stdout⟩ := by
  show parseJSONStatus j stdout = _
  unfold parseJSONStatus
  rw [hp]
  show (if p = 0 then tryUrlField j stdout
    else ⟨some ( "http://127.0.0.1:" ++ toString p), some p,
      (j.status == some "running" || j.running == some true), stdout⟩) = _
  rw [if_neg hnz]

/-- Witness for C6's amended theorem at a concrete JSON object. -/
theorem c6_json_port_witness :
    parseCLIOutput (some ⟨some 51679, none, some "running", none⟩) "raw" =
      ⟨some "http://127.0.0.1:51679", some 51679, true, "raw"⟩ := by
  have h := c6_json_port ⟨some 51679, none, some "running", none⟩ 51679 "raw"
    rfl (by decide)
  exact h.trans (by decide)

/-- C7: `verifyEndpoint` resolves true exactly when the URL parses and the
probed server returns an HTTP response (of any status); a network error,
a timeout, or an unparseable URL all resolve false (the model function is
total: the source never rejects its promise), and the default timeout is
3000 ms. -/
theorem c7_verify_iff (url : String) (timeoutMs : Nat)
    (probe : String → Nat → String → ProbeOutcome) :
    (verifyEndpoint url timeoutMs probe = true ↔
      (∃ u, parseURL url = some u ∧
        probe (probeTarget u).1 (probeTarget u).2.1 (probeTarget u).2.2 =
          ProbeOutcome.response)) ∧
    defaultProbeTimeoutMs = 3000 := by
  refine ⟨?_, rfl⟩
  unfold verifyEndpoint
  have hout : ∀ o, verifyOutcome o = true ↔ o = ProbeOutcome.response := by
    intro o
    cases o <;> simp [verifyOutcome]
  cases hp : parseURL url with
  | none =>
    constructor
    · intro h
      exact absurd h (by simp)
    · rintro ⟨u, hu, _⟩
      exact Option.noConfusion hu
  | some u =>
    show verifyOutcome (probe (probeTarget u).1 (probeTarget u).2.1
      (probeTarget u).2.2) = true ↔ _
    rw [hout]
    constructor
    · intro h
      exact ⟨u, rfl, h⟩
    · rintro ⟨u2, hu2, hpr⟩
      obtain rfl := Option.some.inj hu2
      exact hpr

/-- C8: when no status query among the initial check and the 60 polling
attempts reports running with a non-empty endpoint,
`startFoundryService` returns the soft timeout outcome
`{started: false, wasAlreadyRunning: false}` after 61 queries, and (with
an empty cache) `discoverFoundryService` still performs one further
status query — 62 in total — and, when that query carries a non-empty
endpoint, exactly one verification pass; the budget constants are 60
retries, a 2000 ms grace delay and 1000 ms spacing. -/
theorem c8_poll_exhaustion (cache : Option CacheFile) (now : Int)
    (probe : String → Nat → String → ProbeOutcome) (trace : List QueryResult)
    (hfail : ∀ q ∈ trace.take 61, isReady q = false)
    (hcache : readCachedEndpoint cache now = none) :
    (startFoundryService trace).outcome =
      ⟨false, false, "Service start timeout - please check manually"⟩ ∧
    (startFoundryService trace).queriesUsed = 61 ∧
    (discoverFoundryService cache now probe trace).queriesUsed = 62 ∧
    (∀ e, (nextQuery (startFoundryService trace).rest).1.endpoint = some e →
      e ≠ "" → (discoverFoundryService cache now probe trace).verifyCalls = [e]) ∧
    maxRetries = 60 ∧ startGraceDelayMs = 2000 ∧ pollIntervalMs = 1000 := by
  have hs := start_exhaust hfail
  refine ⟨by rw [hs], by rw [hs], ?_, ?_, rfl, rfl, rfl⟩
  · rw [discover_cache_none probe trace hcache]
    unfold discoverAfterCache
    rw [discoverStep_queriesUsed, hs]
  · intro e hq hne
    rw [discover_cache_none probe trace hcache]
    unfold discoverAfterCache
    rw [discoverStep_verifyCalls _ _ _ _ e hq hne]
    rfl

/-- Witness for C8: a trace of 61 failed queries followed by one running
query; the poller times out after 61 queries, discovery consumes 62 and
verifies the endpoint of the final query once. -/
theorem c8_poll_exhaustion_witness :
    (startFoundryService (List.replicate 61 failedQuery ++
        [⟨some "http://127.0.0.1:9", some 9, true, "r"⟩])).queriesUsed = 61 ∧
    (discoverFoundryService none 0 (fun _ _ _ => .response)
        (List.replicate 61 failedQuery ++
          [⟨some "http://127.0.0.1:9", some 9, true, "r"⟩])).verifyCalls =
      [ "http://127.0.0.1:9" ] := by
  have h := c8_poll_exhaustion none 0 (fun _ _ _ => .response)
    (List.replicate 61 failedQuery ++
      [⟨some "http://127.0.0.1:9", some 9, true, "r"⟩])
    (by decide) rfl
  exact ⟨h.2.1, h.2.2.2.1 "http://127.0.0.1:9" (by decide) (by decide)⟩

/-- C9, counterexample: `normalizeEndpoint` is not idempotent — for
`x = "a b"` the fallback produces `"http://a b"`, whose renormalisation
strips at the first slash of `http://` and yields `"http://http:"`. -/
theorem c9_counterexample :
    normalizeEndpoint "a b" = some "http://a b" ∧
    (normalizeEndpoint "a b").bind normalizeEndpoint = some "http://http:" ∧
    (normalizeEndpoint "a b").bind normalizeEndpoint ≠ normalizeEndpoint "a b" := by
  exact ⟨by decide, by decide, by decide⟩

/-- C9, amended: `normalizeEndpoint` is idempotent on every endpoint
string that parses as a URL (the non-idempotence arises only on the
textual fallback path taken when URL parsing fails). -/
theorem c9_idempotent_on_parsed (x : String) (u : URLRec)
    (h : parseURL x = some u) :
    (normalizeEndpoint x).bind normalizeEndpoint = normalizeEndpoint x := by
  rw [normalizeEndpoint_parsed h]
  show normalizeEndpoint (originOf u) = some (originOf u)
  obtain ⟨schL, g⟩ := parseURL_sound h
  exact normalizeEndpoint_origin_idem g

/-- Witness for C9's amended theorem at a concrete parsed input. -/
theorem c9_idempotent_on_parsed_witness :
    parseURL "https://h:443/some/path/" =
      some ⟨ "https:", "h", "", "/some/path/"⟩ ∧
    (normalizeEndpoint "https://h:443/some/path/").bind normalizeEndpoint =
      normalizeEndpoint "https://h:443/some/path/" := by
  exact ⟨by decide, c9_idempotent_on_parsed "https://h:443/some/path/"
    ⟨ "https:", "h", "", "/some/path/"⟩ (by decide)⟩

/-- C10: every result of the status-output parser and of
`discoverFoundryService` with `isRunning = true` carries a non-null
endpoint string; the converse fails, e.g. JSON with a truthy port but a
status other than `"running"` yields a non-null endpoint with
`isRunning = false`. -/
theorem c10_running_implies_endpoint :
    (∀ (json : Option CLIStatus) (stdout : String),
      (parseCLIOutput json stdout).isRunning = true →
      ∃ s, (parseCLIOutput json stdout).endpoint = some s) ∧
    (∀ (cache : Option CacheFile) (now : Int)
      (probe : String → Nat → String → ProbeOutcome) (trace : List QueryResult),
      (discoverFoundryService cache now probe trace).result.isRunning = true →
      ∃ s, (discoverFoundryService cache now probe trace).result.endpoint = some s) ∧
    ((parseCLIOutput (some ⟨some 7, none, some "stopped", none⟩) "x").endpoint =
        some "http://127.0.0.1:7" ∧
     (parseCLIOutput (some ⟨some 7, none, some "stopped", none⟩) "x").isRunning =
        false) := by
  exact ⟨fun json stdout h => parseCLIOutput_endpoint_of_running h,
    fun cache now probe trace h => discover_endpoint_of_running h,
    by decide, by decide⟩

/-- Witness for C10 at concrete running results of both functions. -/
theorem c10_running_implies_endpoint_witness :
    (∃ s, (parseCLIOutput (some ⟨some 5, none, some "running", none⟩) "").endpoint =
      some s) ∧
    (∃ s, (discoverFoundryService none 0 (fun _ _ _ => .response)
      [⟨some "http://127.0.0.1:5", some 5, true, "r"⟩,
       ⟨some "http://127.0.0.1:5", some 5, true, "r"⟩]).result.endpoint = some s) := by
  constructor
  · exact c10_running_implies_endpoint.1 (some ⟨some 5, none, some "running", none⟩)
      "" (by decide)
  · exact c10_running_implies_endpoint.2.1 none 0 (fun _ _ _ => .response)
      [⟨some "http://127.0.0.1:5", some 5, true, "r"⟩,
       ⟨some "http://127.0.0.1:5", some 5, true, "r"⟩] (by decide)

end FoundryService
